import Mathlib

/-!
Verification of the rtsp-to-mjpeg relay (`src/main.py`).

The development shallowly embeds the core of `main.py`:

* the JPEG frame splitter inside `generate_frames` (lines 134-151): the byte
  buffer is a `List Nat` (one `Nat` per byte), `bytes.find` is `pyFind`
  (returning `-1 : Int` when absent, exactly like Python), one iteration of
  the inner `while` loop is `extractFrame`, and the whole inner loop is
  `scanAll`;
* the outer read loop and the generator's process lifecycle
  (`with subprocess.Popen ... try ... finally p.kill()`) as an event trace
  (`Ev`, `runBody`, `genTrace`), where consumer cancellation (generator
  close on client disconnect) truncates the body trace at the yield where
  the generator is suspended and then runs the `finally` clause;
* the stream registry (`add_stream`, the `SELECT ... WHERE id = ?` lookup)
  and the ffmpeg command construction as `addStream`, `lookupStream`,
  `buildCommand`;
* the Flask route `video_feed` as `video_feed`, returning a status-200
  response whose body is the generator's yields (Flask's `Response`
  constructor used in the source sets no error status).
-/

namespace RtspMjpeg

/-- JPEG start-of-image marker bytes, `b'\xff\xd8'` in `main.py` line 143. -/
def SOI : List Nat := [255, 216]

/-- JPEG end-of-image marker bytes, `b'\xff\xd9'` in `main.py` line 144. -/
def EOI : List Nat := [255, 217]

/-- First index at which `pat` occurs as a contiguous block of `s`
(`none` when it does not occur). -/
def findAt (pat : List Nat) : List Nat → Option Nat
  | [] => if pat.isPrefixOf ([] : List Nat) then some 0 else none
  | b :: t => if pat.isPrefixOf (b :: t) then some 0
              else (findAt pat t).map (fun j => j + 1)

/-- Python `data.find(pat, i)`: index of the first occurrence of `pat` in
`data` at position `≥ i`, and `-1` when there is none. -/
def pyFind (data pat : List Nat) (i : Nat) : Int :=
  match findAt pat (data.drop i) with
  | some j => ((i + j : Nat) : Int)
  | none => -1

/-- One iteration of the inner `while` loop of `generate_frames`
(`main.py` lines 142-151):

    start = data.find(b'\xff\xd8')
    end = data.find(b'\xff\xd9', start + 2)
    if start != -1 and end != -1:
        frame = data[start:end + 2]
        data = data[end + 2:]
        ... (yield frame) ...
    else:
        break

Returns `some (frame, data')` when a frame is sliced out and `none` when
the loop breaks. -/
def extractFrame (data : List Nat) : Option (List Nat × List Nat) :=
  let start : Int := pyFind data SOI 0
  let stop : Int := pyFind data EOI (start + 2).toNat
  if start = -1 ∨ stop = -1 then none
  else some ((data.drop start.toNat).take (stop.toNat + 2 - start.toNat),
             data.drop (stop.toNat + 2))

/-- Fuel-indexed unfolding of the inner `while` loop: repeatedly slice out
frames until `extractFrame` reports no complete pair.  The fuel is only a
termination device; `scanAll` instantiates it with the buffer length, which
is always sufficient because each extraction consumes at least four bytes. -/
def scanLoop : Nat → List Nat → List (List Nat) × List Nat
  | 0, data => ([], data)
  | fuel + 1, data =>
    match extractFrame data with
    | some (f, rest) =>
      let p := scanLoop fuel rest
      (f :: p.1, p.2)
    | none => ([], data)

/-- The inner `while True` loop of `generate_frames` run to completion on a
buffer: the emitted frames in order, and the bytes retained for the next
read. -/
def scanAll (data : List Nat) : List (List Nat) × List Nat :=
  scanLoop data.length data

/-- One outer-loop iteration of `generate_frames` on the accumulated state
`(frames so far, buffer)` after reading chunk `c`: `data += chunk` then the
inner scan loop. -/
def feedStep (acc : List (List Nat) × List Nat) (c : List Nat) :
    List (List Nat) × List Nat :=
  let p := scanAll (acc.2 ++ c)
  (acc.1 ++ p.1, p.2)

/-- Feeding a sequence of chunks through the frame-splitting loop, starting
from an empty buffer: all frames emitted, in order, and the final buffer. -/
def feedChunks (chunks : List (List Nat)) : List (List Nat) × List Nat :=
  chunks.foldl feedStep ([], [])

/-! ### Basic lemmas about `isPrefixOf` and `findAt` -/

theorem isPrefixOf_append {p s : List Nat} (u : List Nat)
    (h : p.isPrefixOf s = true) : p.isPrefixOf (s ++ u) = true := by
  induction p generalizing s with
  | nil => simp
  | cons a p ih =>
    cases s with
    | nil => simp at h
    | cons b t =>
      simp only [List.isPrefixOf_cons₂, Bool.and_eq_true] at h
      simp only [List.cons_append, List.isPrefixOf_cons₂, Bool.and_eq_true]
      exact ⟨h.1, ih h.2⟩

theorem length_le_of_isPrefixOf {p s : List Nat}
    (h : p.isPrefixOf s = true) : p.length ≤ s.length := by
  induction p generalizing s with
  | nil => simp
  | cons a p ih =>
    cases s with
    | nil => simp at h
    | cons b t =>
      simp only [List.isPrefixOf_cons₂, Bool.and_eq_true] at h
      simpa using ih h.2

theorem take_eq_of_isPrefixOf {p s : List Nat}
    (h : p.isPrefixOf s = true) : s.take p.length = p := by
  induction p generalizing s with
  | nil => simp
  | cons a p ih =>
    cases s with
    | nil => simp at h
    | cons b t =>
      simp only [List.isPrefixOf_cons₂, Bool.and_eq_true, beq_iff_eq] at h
      simp [h.1, ih h.2]

theorem isPrefixOf_of_append {p s u : List Nat}
    (h : p.isPrefixOf (s ++ u) = true) (hl : p.length ≤ s.length) :
    p.isPrefixOf s = true := by
  induction p generalizing s with
  | nil => simp
  | cons a p ih =>
    cases s with
    | nil => simp at hl
    | cons b t =>
      simp only [List.cons_append, List.isPrefixOf_cons₂, Bool.and_eq_true] at h
      simp only [List.isPrefixOf_cons₂, Bool.and_eq_true]
      simp only [List.length_cons, Nat.add_le_add_iff_right] at hl
      exact ⟨h.1, ih h.2 hl⟩

theorem findAt_nil_pat (s : List Nat) : findAt [] s = some 0 := by
  cases s <;> simp [findAt]

theorem findAt_isPrefixOf {pat s : List Nat} {j : Nat}
    (h : findAt pat s = some j) : pat.isPrefixOf (s.drop j) = true := by
  induction s generalizing j with
  | nil =>
    by_cases hc : pat.isPrefixOf ([] : List Nat) = true
    · simp [findAt, hc] at h; simpa [← h] using hc
    · simp [findAt, hc] at h
  | cons b t ih =>
    by_cases hc : pat.isPrefixOf (b :: t) = true
    · simp [findAt, hc] at h; simpa [← h] using hc
    · cases hft : findAt pat t with
      | none => simp [findAt, hc, hft] at h
      | some j' =>
        simp [findAt, hc, hft] at h
        rw [← h]
        simpa using ih hft

theorem findAt_le {pat s : List Nat} {i : Nat}
    (h : pat.isPrefixOf (s.drop i) = true) :
    ∃ j, j ≤ i ∧ findAt pat s = some j := by
  induction s generalizing i with
  | nil =>
    refine ⟨0, Nat.zero_le i, ?_⟩
    simp only [List.drop_nil] at h
    simp [findAt, h]
  | cons b t ih =>
    by_cases hc : pat.isPrefixOf (b :: t) = true
    · exact ⟨0, Nat.zero_le i, by simp [findAt, hc]⟩
    · cases i with
      | zero => simp only [List.drop_zero] at h; exact absurd h hc
      | succ i' =>
        simp only [List.drop_succ_cons] at h
        obtain ⟨j', hle, hfind⟩ := ih h
        exact ⟨j' + 1, Nat.succ_le_succ hle, by simp [findAt, hc, hfind]⟩

theorem findAt_none {pat s : List Nat}
    (h : findAt pat s = none) (i : Nat) : pat.isPrefixOf (s.drop i) = false := by
  cases hcc : pat.isPrefixOf (s.drop i) with
  | false => rfl
  | true =>
    obtain ⟨j, _, hj⟩ := findAt_le hcc
    rw [h] at hj
    exact absurd hj (by simp)

theorem findAt_append {pat s : List Nat} (u : List Nat) {j : Nat}
    (h : findAt pat s = some j) : findAt pat (s ++ u) = some j := by
  induction s generalizing j with
  | nil =>
    by_cases hc : pat.isPrefixOf ([] : List Nat) = true
    · have hpat : pat = [] := by
        cases pat with
        | nil => rfl
        | cons a p => simp at hc
      simp [findAt, hc] at h
      subst hpat
      simpa [← h] using findAt_nil_pat u
    · simp [findAt, hc] at h
  | cons b t ih =>
    by_cases hc : pat.isPrefixOf (b :: t) = true
    · simp [findAt, hc] at h
      have hc2 : pat.isPrefixOf (b :: t ++ u) = true := isPrefixOf_append u hc
      simp only [List.cons_append] at hc2 ⊢
      simp [findAt, hc2, ← h]
    · cases hft : findAt pat t with
      | none => simp [findAt, hc, hft] at h
      | some j' =>
        simp [findAt, hc, hft] at h
        have hlen : pat.length ≤ t.length := by
          have h1 := length_le_of_isPrefixOf (findAt_isPrefixOf hft)
          simp only [List.length_drop] at h1
          omega
        by_cases hc2 : pat.isPrefixOf (b :: (t ++ u)) = true
        · exfalso
          apply hc
          exact isPrefixOf_of_append (s := b :: t) (u := u)
            (by simpa using hc2) (by simpa using Nat.le_succ_of_le hlen)
        · simp [List.cons_append, findAt, hc2, ih hft, h]

/-! ### Characterisation of `extractFrame` without `Int` arithmetic -/

theorem extractFrame_eq (data : List Nat) :
    extractFrame data =
      match findAt SOI data with
      | none => none
      | some s =>
        match findAt EOI (data.drop (s + 2)) with
        | none => none
        | some j =>
          some ((data.drop s).take (j + 4), data.drop (s + 2 + j + 2)) := by
  cases hs : findAt SOI data with
  | none => simp [extractFrame, pyFind, hs]
  | some s =>
    cases ht : findAt EOI (data.drop (s + 2)) with
    | none =>
      have e1 : ((s : Int) + 2).toNat = s + 2 := by omega
      simp [extractFrame, pyFind, hs, e1, ht]
    | some j =>
      have e1 : ((s : Int) + 2).toNat = s + 2 := by omega
      simp only [extractFrame, pyFind, List.drop_zero, hs, Nat.zero_add, e1, ht]
      rw [if_neg (by omega)]
      have e3 : ((s : Int)).toNat = s := by omega
      have e4 : (((s + 2 + j : Nat) : Int)).toNat = s + 2 + j := by omega
      rw [e3, e4]
      have e5 : s + 2 + j + 2 - s = j + 4 := by omega
      rw [e5]

theorem extract_bounds {data : List Nat} {s j : Nat}
    (hs : findAt SOI data = some s)
    (ht : findAt EOI (data.drop (s + 2)) = some j) :
    s + 2 + j + 2 ≤ data.length := by
  have h1 := length_le_of_isPrefixOf (findAt_isPrefixOf hs)
  have h2 := length_le_of_isPrefixOf (findAt_isPrefixOf ht)
  have hS : SOI.length = 2 := rfl
  have hE : EOI.length = 2 := rfl
  simp only [List.length_drop, hS, hE] at h1 h2
  omega

theorem extractFrame_length {data f rest : List Nat}
    (h : extractFrame data = some (f, rest)) :
    rest.length < data.length ∧ 4 ≤ data.length := by
  rw [extractFrame_eq] at h
  cases hs : findAt SOI data with
  | none => simp only [hs] at h; exact Option.noConfusion h
  | some s =>
    simp only [hs] at h
    cases ht : findAt EOI (data.drop (s + 2)) with
    | none => simp only [ht] at h; exact Option.noConfusion h
    | some j =>
      simp only [ht, Option.some.injEq, Prod.mk.injEq] at h
      have hb := extract_bounds hs ht
      constructor
      · rw [← h.2]
        simp only [List.length_drop]
        omega
      · omega

theorem extractFrame_shape {data f rest : List Nat}
    (h : extractFrame data = some (f, rest)) :
    f.take 2 = SOI ∧ f.drop (f.length - 2) = EOI ∧ 4 ≤ f.length := by
  rw [extractFrame_eq] at h
  cases hs : findAt SOI data with
  | none => simp only [hs] at h; exact Option.noConfusion h
  | some s =>
    simp only [hs] at h
    cases ht : findAt EOI (data.drop (s + 2)) with
    | none => simp only [ht] at h; exact Option.noConfusion h
    | some j =>
      simp only [ht, Option.some.injEq, Prod.mk.injEq] at h
      have hb := extract_bounds hs ht
      have hf : f = (data.drop s).take (j + 4) := h.1.symm
      have hflen : f.length = j + 4 := by
        rw [hf]
        simp only [List.length_take, List.length_drop]
        omega
      have hpre : SOI.isPrefixOf (data.drop s) = true := findAt_isPrefixOf hs
      refine ⟨?_, ?_, by omega⟩
      · rw [hf, List.take_take]
        have : min 2 (j + 4) = 2 := by omega
        rw [this]
        have := take_eq_of_isPrefixOf hpre
        simpa using this
      · have hpre2 : EOI.isPrefixOf (data.drop (s + 2 + j)) = true := by
          have := findAt_isPrefixOf ht
          rwa [List.drop_drop] at this
        have e1 : j + 4 - 2 = j + 2 := by omega
        rw [hflen, e1, hf, List.drop_take, List.drop_drop]
        have e2 : j + 4 - (j + 2) = 2 := by omega
        have e3 : s + 2 + j = s + (j + 2) := by omega
        rw [e2, ← e3]
        have := take_eq_of_isPrefixOf hpre2
        simpa using this

theorem extractFrame_append {b : List Nat} (c : List Nat) {f rest : List Nat}
    (h : extractFrame b = some (f, rest)) :
    extractFrame (b ++ c) = some (f, rest ++ c) := by
  rw [extractFrame_eq] at h
  cases hs : findAt SOI b with
  | none => simp only [hs] at h; exact Option.noConfusion h
  | some s =>
    simp only [hs] at h
    cases ht : findAt EOI (b.drop (s + 2)) with
    | none => simp only [ht] at h; exact Option.noConfusion h
    | some j =>
      simp only [ht, Option.some.injEq, Prod.mk.injEq] at h
      have hb := extract_bounds hs ht
      rw [extractFrame_eq]
      simp only [findAt_append c hs]
      have hd2 : (b ++ c).drop (s + 2) = b.drop (s + 2) ++ c :=
        List.drop_append_of_le_length (by omega)
      simp only [hd2, findAt_append c ht]
      simp only [Option.some.injEq, Prod.mk.injEq]
      constructor
      · have hd : (b ++ c).drop s = b.drop s ++ c :=
          List.drop_append_of_le_length (by omega)
        have ht4 : (b.drop s ++ c).take (j + 4) = (b.drop s).take (j + 4) :=
          List.take_append_of_le_length (by simp only [List.length_drop]; omega)
        rw [hd, ht4, h.1]
      · have hd3 : (b ++ c).drop (s + 2 + j + 2) = b.drop (s + 2 + j + 2) ++ c :=
          List.drop_append_of_le_length (by omega)
        rw [hd3, h.2]

theorem extractFrame_none_iff {data : List Nat} :
    extractFrame data = none ↔
      ¬ ∃ i j, SOI.isPrefixOf (data.drop i) = true ∧
        EOI.isPrefixOf (data.drop j) = true ∧ i + 2 ≤ j := by
  constructor
  · intro h
    rintro ⟨i, j, hi, hj, hij⟩
    rw [extractFrame_eq] at h
    obtain ⟨s, hsle, hs⟩ := findAt_le (i := i) (by simpa using hi)
    simp only [hs] at h
    have hj' : EOI.isPrefixOf ((data.drop (s + 2)).drop (j - (s + 2))) = true := by
      rw [List.drop_drop]
      have : s + 2 + (j - (s + 2)) = j := by omega
      rw [this]
      exact hj
    obtain ⟨j', _, hj''⟩ := findAt_le hj'
    simp only [hj''] at h
    exact Option.noConfusion h
  · intro h
    cases hE : extractFrame data with
    | none => rfl
    | some pr =>
      obtain ⟨f, rest⟩ := pr
      exfalso
      rw [extractFrame_eq] at hE
      cases hs : findAt SOI data with
      | none => simp only [hs] at hE; exact Option.noConfusion hE
      | some s =>
        simp only [hs] at hE
        cases ht : findAt EOI (data.drop (s + 2)) with
        | none => simp only [ht] at hE; exact Option.noConfusion hE
        | some j =>
          apply h
          refine ⟨s, s + 2 + j, findAt_isPrefixOf hs, ?_, by omega⟩
          have := findAt_isPrefixOf ht
          rwa [List.drop_drop] at this

/-! ### The inner scan loop run to completion -/

theorem scanLoop_eq : ∀ fuel data, List.length data ≤ fuel →
    scanLoop fuel data = scanAll data := by
  intro fuel
  induction fuel using Nat.strong_induction_on with
  | _ fuel ih =>
    intro data hle
    match fuel with
    | 0 =>
      have : data = [] := List.eq_nil_of_length_eq_zero (by omega)
      subst this
      rfl
    | k + 1 =>
      cases hE : extractFrame data with
      | none =>
        unfold scanAll
        cases hL : data.length with
        | zero => simp [scanLoop, hE]
        | succ m => simp [scanLoop, hE]
      | some pr =>
        obtain ⟨f, rest⟩ := pr
        have hlt := extractFrame_length hE
        unfold scanAll
        cases hL : data.length with
        | zero => omega
        | succ m =>
          simp only [scanLoop, hE]
          rw [ih k (by omega) rest (by omega), ih m (by omega) rest (by omega)]

theorem scanAll_eq (data : List Nat) :
    scanAll data =
      match extractFrame data with
      | some (f, rest) => (f :: (scanAll rest).1, (scanAll rest).2)
      | none => ([], data) := by
  cases hE : extractFrame data with
  | none =>
    unfold scanAll
    cases hL : data.length with
    | zero => simp [scanLoop]
    | succ m => simp [scanLoop, hE]
  | some pr =>
    obtain ⟨f, rest⟩ := pr
    have hlt := extractFrame_length hE
    unfold scanAll
    cases hL : data.length with
    | zero => omega
    | succ m =>
      simp only [scanLoop, hE]
      rw [scanLoop_eq m rest (by omega)]
      rfl

theorem scanAll_stuck (data : List Nat) :
    extractFrame (scanAll data).2 = none := by
  suffices h : ∀ n data, List.length data ≤ n →
      extractFrame (scanAll data).2 = none from h data.length data le_rfl
  intro n
  induction n using Nat.strong_induction_on with
  | _ n ih =>
    intro data hle
    rw [scanAll_eq]
    cases hE : extractFrame data with
    | none => simpa using hE
    | some pr =>
      obtain ⟨f, rest⟩ := pr
      have hlt := extractFrame_length hE
      simpa using ih rest.length (by omega) rest le_rfl

theorem scanAll_append (b c : List Nat) :
    scanAll (b ++ c) =
      ((scanAll b).1 ++ (scanAll ((scanAll b).2 ++ c)).1,
       (scanAll ((scanAll b).2 ++ c)).2) := by
  suffices h : ∀ n b, List.length b ≤ n → ∀ c : List Nat,
      scanAll (b ++ c) =
        ((scanAll b).1 ++ (scanAll ((scanAll b).2 ++ c)).1,
         (scanAll ((scanAll b).2 ++ c)).2) from h b.length b le_rfl c
  intro n
  induction n using Nat.strong_induction_on with
  | _ n ih =>
    intro b hle c
    cases hE : extractFrame b with
    | none =>
      rw [scanAll_eq b, hE]
      simp
    | some pr =>
      obtain ⟨f, rest⟩ := pr
      have hlt := extractFrame_length hE
      rw [scanAll_eq (b ++ c), extractFrame_append c hE,
          scanAll_eq b, hE]
      simp only []
      rw [ih rest.length (by omega) rest le_rfl c]
      simp

theorem extractFrame_nil : extractFrame [] = none := rfl

theorem scanAll_of_none {buf : List Nat} (hb : extractFrame buf = none) :
    scanAll buf = ([], buf) := by
  rw [scanAll_eq, hb]

theorem feedStep_def (acc : List (List Nat) × List Nat) (c : List Nat) :
    feedStep acc c = (acc.1 ++ (scanAll (acc.2 ++ c)).1, (scanAll (acc.2 ++ c)).2) :=
  rfl

theorem foldl_feedStep (chunks : List (List Nat)) :
    ∀ fs buf, extractFrame buf = none →
      chunks.foldl feedStep (fs, buf) =
        (fs ++ (scanAll (buf ++ chunks.flatten)).1,
         (scanAll (buf ++ chunks.flatten)).2) := by
  induction chunks with
  | nil =>
    intro fs buf hb
    simp only [List.foldl_nil, List.flatten_nil, List.append_nil,
      scanAll_of_none hb]
  | cons c rest ih =>
    intro fs buf hb
    simp only [List.foldl_cons, List.flatten_cons, feedStep_def]
    rw [ih _ _ (scanAll_stuck _)]
    rw [← List.append_assoc buf c rest.flatten,
      scanAll_append (buf ++ c) rest.flatten]
    simp [List.append_assoc]

theorem feedChunks_eq (chunks : List (List Nat)) :
    feedChunks chunks = scanAll chunks.flatten := by
  unfold feedChunks
  rw [foldl_feedStep chunks [] [] extractFrame_nil]
  simp

/-! ### Event-trace model of `generate_frames` (`main.py` lines 101-153)

The generator's observable actions are modelled as a list of events:
`spawn` (the `subprocess.Popen` call), `read` (a `p.stdout.read(4096)`
call), `yield bs` (one multipart chunk handed to the consumer) and `kill`
(the `p.kill()` in the `finally` clause).  The byte source is a list of
read outcomes: `ok bs` (the read returned the bytes `bs`; the empty list
means EOF, upon which the loop breaks) and `fail` (the read raised, which
aborts the loop; the `finally` clause still runs).  Once the outcome list
is exhausted further reads return EOF. -/

inductive Ev where
  | spawn : Ev
  | read : Ev
  | yield : List Nat → Ev
  | kill : Ev
deriving DecidableEq

inductive ReadOutcome where
  | ok : List Nat → ReadOutcome
  | fail : ReadOutcome
deriving DecidableEq

/-- The bytes `b'\r\n'`. -/
def crlf : List Nat := [13, 10]

/-- The ASCII bytes of `b'--frame\r\nContent-Type: image/jpeg\r\n\r\n'`
(`main.py` lines 148-149). -/
def partHeader : List Nat :=
  [45, 45, 102, 114, 97, 109, 101, 13, 10,
   67, 111, 110, 116, 101, 110, 116, 45, 84, 121, 112, 101, 58, 32,
   105, 109, 97, 103, 101, 47, 106, 112, 101, 103, 13, 10, 13, 10]

/-- The multipart chunk yielded for one frame:
`b'--frame\r\nContent-Type: image/jpeg\r\n\r\n' + frame + b'\r\n'`. -/
def wrapFrame (f : List Nat) : List Nat := partHeader ++ f ++ crlf

/-- The events of the generator body (the outer `while True` read loop,
without the `finally` clause), starting from buffer `buf` and drawing
reads from `src`. -/
def runBody : List Nat → List ReadOutcome → List Ev
  | _, [] => [Ev.read]
  | _, ReadOutcome.fail :: _ => [Ev.read]
  | buf, ReadOutcome.ok c :: rest =>
    if c = [] then [Ev.read]
    else
      Ev.read ::
        ((scanAll (buf ++ c)).1.map (fun f => Ev.yield (wrapFrame f)) ++
          runBody (scanAll (buf ++ c)).2 rest)

/-- How the consumer ends the generator: `normal` means the consumer
drives the generator to completion (EOF or a read error); `cancel j`
means the consumer received `j` yields and then closed the generator
(client disconnect), raising `GeneratorExit` at the yield where the
generator is suspended.  `cancel 0` closes a never-started generator:
its body (including `Popen`) never ran. -/
inductive ExitMode where
  | normal : ExitMode
  | cancel : Nat → ExitMode
deriving DecidableEq

/-- Truncate a body trace at the `j`-th `yield` event: the events a
generator executes when the consumer closes it after consuming `j`
yields.  If fewer than `j` yields occur the body runs to completion. -/
def truncYields : Nat → List Ev → List Ev
  | _, [] => []
  | 0, _ :: _ => []
  | j + 1, Ev.yield c :: t => Ev.yield c :: truncYields j t
  | j + 1, Ev.spawn :: t => Ev.spawn :: truncYields (j + 1) t
  | j + 1, Ev.read :: t => Ev.read :: truncYields (j + 1) t
  | j + 1, Ev.kill :: t => Ev.kill :: truncYields (j + 1) t

/-- The events strictly after the `j`-th `yield` event (empty when there
are fewer than `j` yields). -/
def afterYields : Nat → List Ev → List Ev
  | 0, t => t
  | _ + 1, [] => []
  | j + 1, Ev.yield _ :: t => afterYields j t
  | j + 1, Ev.spawn :: t => afterYields (j + 1) t
  | j + 1, Ev.read :: t => afterYields (j + 1) t
  | j + 1, Ev.kill :: t => afterYields (j + 1) t

/-- The full event trace of one execution of the spawned part of
`generate_frames`: `with subprocess.Popen(...) as p` (spawn), the read
loop, and the `finally: p.kill()` on every exit path — normal completion,
a read error (a `fail` outcome in `src`), and consumer cancellation. -/
def genTrace (src : List ReadOutcome) : ExitMode → List Ev
  | ExitMode.normal => Ev.spawn :: (runBody [] src ++ [Ev.kill])
  | ExitMode.cancel 0 => []
  | ExitMode.cancel (j + 1) =>
    Ev.spawn :: (truncYields (j + 1) (runBody [] src) ++ [Ev.kill])

/-- The byte chunks delivered to the consumer along a trace. -/
def yieldsOf (t : List Ev) : List (List Nat) :=
  t.filterMap (fun e =>
    match e with
    | Ev.yield bs => some bs
    | _ => none)

/-! ### The stream registry and the HTTP layer -/

/-- One row of the `streams` table
(`id INTEGER PRIMARY KEY, url TEXT, active INTEGER, quality TEXT,
resolution TEXT, fps INTEGER`). -/
structure StreamRow where
  id : Nat
  url : String
  active : Int
  quality : String
  resolution : String
  fps : Int
deriving DecidableEq

/-- The primary key SQLite assigns to the next inserted row: one more
than the largest id in the table. -/
def nextId (db : List StreamRow) : Nat :=
  (db.map (fun r => r.id)).foldl max 0 + 1

/-- `add_stream` (`main.py` lines 65-83): insert
`(url, 1, quality, resolution, fps)` into `streams`.  No value is
validated or altered. -/
def addStream (db : List StreamRow) (url quality resolution : String)
    (fps : Int) : List StreamRow :=
  db ++ [⟨nextId db, url, 1, quality, resolution, fps⟩]

/-- The `SELECT url, quality, resolution, fps FROM streams WHERE id = ?`
lookup with `one=True` (`main.py` lines 117-118 and 46-63): the first
matching row, or `none`. -/
def lookupStream (db : List StreamRow) (i : Nat) : Option StreamRow :=
  (db.filter (fun r => r.id == i)).head?

/-- The ffmpeg argument list built in `generate_frames`
(`main.py` lines 123-133). -/
def buildCommand (r : StreamRow) : List String :=
  ["ffmpeg",
   "-rtsp_transport", "tcp",
   "-i", r.url,
   "-r", toString r.fps,
   "-c:v", "mjpeg",
   "-vf", "scale=" ++ r.resolution,
   "-q:v", r.quality,
   "-f", "image2pipe",
   "-"]

/-- The observable trace of `generate_frames stream_id`: the stream id is
looked up first; when the lookup fails the generator returns before
spawning anything (`main.py` lines 117-120), so the trace is empty. -/
def generateFramesTrace (db : List StreamRow) (i : Nat)
    (src : List ReadOutcome) (m : ExitMode) : List Ev :=
  match lookupStream db i with
  | none => []
  | some _ => genTrace src m

/-- A streaming HTTP response as produced by Flask's `Response`
constructor: `video_feed` never sets a status, so Flask's default `200`
is used unconditionally (`main.py` lines 156-169). -/
structure HttpResponse where
  status : Nat
  mimetype : String
  body : List (List Nat)
deriving DecidableEq

/-- The `/video_feed/<int:stream_id>` route (`main.py` lines 156-169):
`Response(generate_frames(stream_id), mimetype=...)`. -/
def video_feed (db : List StreamRow) (i : Nat)
    (src : List ReadOutcome) : HttpResponse :=
  { status := 200
    mimetype := "multipart/x-mixed-replace; boundary=frame"
    body := yieldsOf (generateFramesTrace db i src ExitMode.normal) }

/-- A complete `0xFFD8 ... 0xFFD9` span: begins with the start marker,
and the first end marker at or after offset 2 sits exactly at the end of
the span (so the span ends with `0xFFD9` and its interior contains no
end marker). -/
def CleanSpan (sp : List Nat) : Prop :=
  SOI.isPrefixOf sp = true ∧ 4 ≤ sp.length ∧
    findAt EOI (sp.drop 2) = some (sp.length - 4)

instance (sp : List Nat) : Decidable (CleanSpan sp) := by
  unfold CleanSpan
  infer_instance

/-! ### Lemmas about the event-trace model -/

theorem kill_notin_runBody : ∀ (src : List ReadOutcome) (buf : List Nat),
    Ev.kill ∉ runBody buf src := by
  intro src
  induction src with
  | nil => intro buf; simp [runBody]
  | cons o rest ih =>
    intro buf
    cases o with
    | fail => simp [runBody]
    | ok c =>
      by_cases hc : c = []
      · simp [runBody, hc]
      · simp only [runBody, if_neg hc]
        intro hmem
        rcases List.mem_cons.mp hmem with h | h
        · exact Ev.noConfusion h
        · rcases List.mem_append.mp h with h | h
          · rcases List.mem_map.mp h with ⟨f, _, hf⟩
            exact Ev.noConfusion hf
          · exact ih _ h

theorem truncYields_sublist : ∀ (j : Nat) (t : List Ev),
    List.Sublist (truncYields j t) t := by
  intro j t
  induction t generalizing j with
  | nil => simp [truncYields]
  | cons e t ih =>
    cases j with
    | zero => simp [truncYields]
    | succ j =>
      cases e with
      | yield c =>
        simp only [truncYields]
        exact List.cons_sublist_cons.mpr (ih j)
      | spawn =>
        simp only [truncYields]
        exact List.cons_sublist_cons.mpr (ih (j + 1))
      | read =>
        simp only [truncYields]
        exact List.cons_sublist_cons.mpr (ih (j + 1))
      | kill =>
        simp only [truncYields]
        exact List.cons_sublist_cons.mpr (ih (j + 1))

theorem afterYields_sublist : ∀ (j : Nat) (t : List Ev),
    List.Sublist (afterYields j t) t := by
  intro j t
  induction t generalizing j with
  | nil => cases j <;> simp [afterYields]
  | cons e t ih =>
    cases j with
    | zero => simp [afterYields]
    | succ j =>
      cases e with
      | yield c =>
        simp only [afterYields]
        exact (ih j).trans (List.sublist_cons_self _ _)
      | spawn =>
        simp only [afterYields]
        exact (ih (j + 1)).trans (List.sublist_cons_self _ _)
      | read =>
        simp only [afterYields]
        exact (ih (j + 1)).trans (List.sublist_cons_self _ _)
      | kill =>
        simp only [afterYields]
        exact (ih (j + 1)).trans (List.sublist_cons_self _ _)

theorem afterYields_truncYields : ∀ (t : List Ev) (j : Nat) (l : List Ev),
    List.Sublist (afterYields j (truncYields j t ++ l)) l := by
  intro t
  induction t with
  | nil =>
    intro j l
    simpa [truncYields] using afterYields_sublist j l
  | cons e t ih =>
    intro j l
    cases j with
    | zero => simp [truncYields, afterYields]
    | succ j =>
      cases e with
      | yield c =>
        simp only [truncYields, List.cons_append, afterYields]
        exact ih j l
      | spawn =>
        simp only [truncYields, List.cons_append, afterYields]
        exact ih (j + 1) l
      | read =>
        simp only [truncYields, List.cons_append, afterYields]
        exact ih (j + 1) l
      | kill =>
        simp only [truncYields, List.cons_append, afterYields]
        exact ih (j + 1) l

theorem yieldsOf_cons_read (t : List Ev) :
    yieldsOf (Ev.read :: t) = yieldsOf t := by
  simp [yieldsOf]

theorem yieldsOf_append (a b : List Ev) :
    yieldsOf (a ++ b) = yieldsOf a ++ yieldsOf b := by
  simp [yieldsOf]

theorem yieldsOf_map_yield (fs : List (List Nat)) (g : List Nat → List Nat) :
    yieldsOf (fs.map (fun f => Ev.yield (g f))) = fs.map g := by
  induction fs with
  | nil => rfl
  | cons f fs ih => simp [yieldsOf] at ih ⊢; exact ih

/-- Every frame emitted by the inner scan loop begins with the start
marker, ends with the end marker, and is at least four bytes long. -/
theorem mem_scanAll_shape {data f : List Nat} (h : f ∈ (scanAll data).1) :
    f.take 2 = SOI ∧ f.drop (f.length - 2) = EOI ∧ 4 ≤ f.length := by
  revert h
  suffices hgen : ∀ n data, List.length data ≤ n → ∀ f, f ∈ (scanAll data).1 →
      f.take 2 = SOI ∧ f.drop (f.length - 2) = EOI ∧ 4 ≤ f.length from
    fun h => hgen data.length data le_rfl f h
  intro n
  induction n using Nat.strong_induction_on with
  | _ n ih =>
    intro data hle f hf
    rw [scanAll_eq] at hf
    cases hE : extractFrame data with
    | none => simp only [hE] at hf; simp at hf
    | some pr =>
      obtain ⟨g, rest⟩ := pr
      have hlt := extractFrame_length hE
      simp only [hE] at hf
      rcases List.mem_cons.mp hf with rfl | hf
      · exact extractFrame_shape hE
      · exact ih rest.length (by omega) rest le_rfl f hf

/-- The chunks delivered by the generator body are exactly the complete
frames of the accumulated byte stream, wrapped in the multipart headers,
when every read returns a non-empty chunk. -/
theorem yieldsOf_runBody : ∀ (chunks : List (List Nat)) (buf : List Nat),
    extractFrame buf = none → (∀ c ∈ chunks, c ≠ []) →
    yieldsOf (runBody buf (chunks.map ReadOutcome.ok)) =
      ((scanAll (buf ++ chunks.flatten)).1).map wrapFrame := by
  intro chunks
  induction chunks with
  | nil =>
    intro buf hb _
    simp [runBody, yieldsOf, scanAll_of_none hb]
  | cons c rest ih =>
    intro buf hb hne
    have hc : c ≠ [] := hne c (by simp)
    simp only [List.map_cons, runBody, if_neg hc]
    rw [yieldsOf_cons_read, yieldsOf_append, yieldsOf_map_yield,
      ih _ (scanAll_stuck _) (fun d hd => hne d (by simp [hd]))]
    rw [← List.map_append]
    rw [List.flatten_cons, ← List.append_assoc,
      scanAll_append (buf ++ c) rest.flatten]

/-- Every chunk a generator body yields is a wrapped complete frame. -/
theorem yieldsOf_runBody_mem : ∀ (src : List ReadOutcome) (buf b : List Nat),
    b ∈ yieldsOf (runBody buf src) →
    ∃ f, b = wrapFrame f ∧ f.take 2 = SOI ∧
      f.drop (f.length - 2) = EOI ∧ 4 ≤ f.length := by
  intro src
  induction src with
  | nil => intro buf b hb; simp [runBody, yieldsOf] at hb
  | cons o rest ih =>
    intro buf b hb
    cases o with
    | fail => simp [runBody, yieldsOf] at hb
    | ok c =>
      by_cases hc : c = []
      · simp [runBody, hc, yieldsOf] at hb
      · simp only [runBody, if_neg hc, yieldsOf_cons_read, yieldsOf_append] at hb
        rcases List.mem_append.mp hb with hb | hb
        · rw [yieldsOf_map_yield] at hb
          rcases List.mem_map.mp hb with ⟨f, hf, rfl⟩
          exact ⟨f, rfl, mem_scanAll_shape hf⟩
        · exact ih _ b hb

theorem yieldsOf_genTrace_normal (src : List ReadOutcome) :
    yieldsOf (genTrace src ExitMode.normal) = yieldsOf (runBody [] src) := by
  simp [genTrace, yieldsOf]

theorem yieldsOf_genTrace_mem (src : List ReadOutcome) (m : ExitMode)
    (b : List Nat) (hb : b ∈ yieldsOf (genTrace src m)) :
    b ∈ yieldsOf (runBody [] src) := by
  cases m with
  | normal => rwa [yieldsOf_genTrace_normal] at hb
  | cancel j =>
    cases j with
    | zero => simp [genTrace, yieldsOf] at hb
    | succ j =>
      simp only [genTrace, yieldsOf, List.filterMap_cons,
        List.filterMap_append] at hb
      simp only [yieldsOf]
      rcases List.mem_append.mp hb with hb | hb
      · exact ((truncYields_sublist (j + 1) (runBody [] src)).filterMap
          _).subset hb
      · simp at hb

theorem genTrace_kill (src : List ReadOutcome) (m : ExitMode)
    (hspawn : Ev.spawn ∈ genTrace src m) :
    (genTrace src m).count Ev.kill = 1 ∧
    (genTrace src m).getLast? = some Ev.kill := by
  have hcount : ∀ t : List Ev, Ev.kill ∉ t →
      (Ev.spawn :: (t ++ [Ev.kill])).count Ev.kill = 1 := by
    intro t ht
    rw [List.count_cons]
    simp [List.count_append, List.count_eq_zero_of_not_mem ht]
  have hlast : ∀ t : List Ev,
      (Ev.spawn :: (t ++ [Ev.kill])).getLast? = some Ev.kill := by
    intro t
    rw [← List.cons_append, List.getLast?_concat]
  cases m with
  | normal => exact ⟨hcount _ (kill_notin_runBody src []), hlast _⟩
  | cancel j =>
    cases j with
    | zero => simp [genTrace] at hspawn
    | succ j =>
      refine ⟨hcount _ ?_, hlast _⟩
      intro hmem
      exact kill_notin_runBody src []
        ((truncYields_sublist (j + 1) (runBody [] src)).subset hmem)

/-! ### Registry helpers -/

theorem foldl_max_init : ∀ (l : List Nat) (a : Nat), a ≤ l.foldl max a := by
  intro l
  induction l with
  | nil => intro a; exact le_rfl
  | cons b t ih => intro a; exact le_trans (Nat.le_max_left a b) (ih (max a b))

theorem foldl_max_mem : ∀ (l : List Nat) (a x : Nat), x ∈ l → x ≤ l.foldl max a := by
  intro l
  induction l with
  | nil => intro a x hx; simp at hx
  | cons b t ih =>
    intro a x hx
    rcases List.mem_cons.mp hx with rfl | hx
    · exact le_trans (Nat.le_max_right a x) (foldl_max_init t _)
    · exact ih _ x hx

theorem id_lt_nextId (db : List StreamRow) (r : StreamRow) (hr : r ∈ db) :
    r.id < nextId db := by
  unfold nextId
  have := foldl_max_mem (db.map (fun r => r.id)) 0 r.id
    (List.mem_map.mpr ⟨r, hr, rfl⟩)
  omega

theorem findAt_zero {p s : List Nat} (h : p.isPrefixOf s = true) :
    findAt p s = some 0 := by
  cases s with
  | nil => simp [findAt, h]
  | cons b t => simp [findAt, h]

/-- An RTSP URL used in concrete instances. -/
def urlW : String := "rtsp://camera.example/stream1"

/-- A quality value outside the documented 1-31 domain. -/
def q999 : String := "999"

/-- A resolution string used in concrete instances. -/
def resW : String := "640x480"

/-! ### The claims -/

/-- Claim C1: every execution of `generate_frames` that spawns a decoder
process invokes the process kill exactly once, as the final event, on every
exit path — normal EndOfStream, a read error (a `ReadOutcome.fail` in the
source), and consumer cancellation after `j` consumed yields — and after
cancellation no further reads of the byte source occur. -/
theorem c1_terminate_exactly_once (src : List ReadOutcome) (m : ExitMode)
    (j : Nat) :
    (Ev.spawn ∈ genTrace src m →
      (genTrace src m).count Ev.kill = 1 ∧
      (genTrace src m).getLast? = some Ev.kill) ∧
    (afterYields j (genTrace src (ExitMode.cancel j))).count Ev.read = 0 := by
  refine ⟨genTrace_kill src m, ?_⟩
  cases j with
  | zero => simp [genTrace, afterYields]
  | succ j =>
    have heq : afterYields (j + 1) (genTrace src (ExitMode.cancel (j + 1))) =
        afterYields (j + 1)
          (truncYields (j + 1) (runBody [] src) ++ [Ev.kill]) := by
      simp [genTrace, afterYields]
    rw [heq]
    have hle := (afterYields_truncYields (runBody [] src) (j + 1)
      [Ev.kill]).count_le Ev.read
    have h0 : List.count Ev.read [Ev.kill] = 0 := by decide
    omega

/-- Witness for C1 at a one-chunk source holding one complete frame,
consumed to completion. -/
theorem c1_terminate_exactly_once_witness :
    Ev.spawn ∈ genTrace [ReadOutcome.ok [255, 216, 170, 255, 217]]
      ExitMode.normal ∧
    (genTrace [ReadOutcome.ok [255, 216, 170, 255, 217]]
      ExitMode.normal).count Ev.kill = 1 ∧
    (genTrace [ReadOutcome.ok [255, 216, 170, 255, 217]]
      ExitMode.normal).getLast? = some Ev.kill :=
  ⟨by decide,
   ((c1_terminate_exactly_once _ ExitMode.normal 0).1 (by decide)).1,
   ((c1_terminate_exactly_once _ ExitMode.normal 0).1 (by decide)).2⟩

/-- Claim C2 as stated is false: for an unknown stream id the route
returns Flask's default status 200 with an empty body — it does not
report a not-found failure.  Concretely, on an empty registry and stream
id 1 the lookup fails, yet the response status is 200 (not 404), with
zero body bytes and zero spawned processes. -/
theorem c2_counterexample :
    lookupStream [] 1 = none ∧
    (video_feed [] 1 []).status = 200 ∧
    (video_feed [] 1 []).status ≠ 404 ∧
    (video_feed [] 1 []).body = [] ∧
    (generateFramesTrace [] 1 [] ExitMode.normal).count Ev.spawn = 0 :=
  ⟨rfl, rfl, by decide, rfl, rfl⟩

/-- Claim C2 (amended): for every stream id that does not resolve to a
stored row, the video feed writes zero stream body bytes and launches
zero decoder processes — the generator returns before spawning anything —
but the response is a plain 200, not a not-found failure. -/
theorem c2_unknown_stream (db : List StreamRow) (i : Nat)
    (src : List ReadOutcome) (m : ExitMode)
    (hl : lookupStream db i = none) :
    (video_feed db i src).status = 200 ∧
    (video_feed db i src).body = [] ∧
    generateFramesTrace db i src m = [] ∧
    (generateFramesTrace db i src m).count Ev.spawn = 0 := by
  have ht : ∀ m' : ExitMode, generateFramesTrace db i src m' = [] := by
    intro m'
    unfold generateFramesTrace
    simp [hl]
  refine ⟨rfl, ?_, ht m, by simp [ht m]⟩
  unfold video_feed
  simp [ht ExitMode.normal, yieldsOf]

/-- Witness for C2 (amended) at the empty registry and stream id 1. -/
theorem c2_unknown_stream_witness :
    lookupStream [] 1 = none ∧
    (video_feed [] 1 []).status = 200 ∧
    (video_feed [] 1 []).body = [] ∧
    generateFramesTrace [] 1 [] ExitMode.normal = [] :=
  ⟨by decide,
   (c2_unknown_stream [] 1 [] ExitMode.normal rfl).1,
   (c2_unknown_stream [] 1 [] ExitMode.normal rfl).2.1,
   (c2_unknown_stream [] 1 [] ExitMode.normal rfl).2.2.1⟩

/-- Claim C3: feeding any byte sequence through the frame-splitting loop
in any chunking yields exactly the frames (and final buffer) of feeding
the concatenation as one chunk; in particular chunk 1 = `FF D8 AA`
then chunk 2 = `BB FF D9` yields zero frames after chunk 1 and exactly
the frame `FF D8 AA BB FF D9` after chunk 2. -/
theorem c3_chunking_invariance :
    (∀ chunks : List (List Nat), feedChunks chunks = scanAll chunks.flatten) ∧
    feedChunks [[255, 216, 170]] = ([], [255, 216, 170]) ∧
    feedChunks [[255, 216, 170], [187, 255, 217]] =
      ([[255, 216, 170, 187, 255, 217]], []) :=
  ⟨feedChunks_eq, by decide, by decide⟩

/-- Claim C4 as literally stated is false: `FF D8 FF D9 FF D9` is one
complete span by the claim's wording (begins with `0xFFD8`, ends with
`0xFFD9`, no partial trailing span), yet after the scan the internal
buffer still holds `FF D9` — it is not empty (the span's interior
contains an earlier end marker, so the slice stops there). -/
theorem c4_counterexample :
    SOI.isPrefixOf [255, 216, 255, 217, 255, 217] = true ∧
    ([255, 216, 255, 217, 255, 217] : List Nat).drop 4 = EOI ∧
    scanAll [255, 216, 255, 217, 255, 217] =
      ([[255, 216, 255, 217]], [255, 217]) ∧
    (scanAll [255, 216, 255, 217, 255, 217]).2 ≠ [] := by
  refine ⟨by decide, by decide, by decide, by decide⟩

/-- Claim C4 (amended): for every input that is a concatenation of
complete `0xFFD8 ... 0xFFD9` spans — each running from its start marker
to the first end marker at or after offset 2 (`CleanSpan`) — with no
partial trailing span, the scan produces exactly those spans as frames,
in order, and the internal buffer ends empty. -/
theorem c4_n_spans_n_frames :
    ∀ spans : List (List Nat), (∀ sp ∈ spans, CleanSpan sp) →
      scanAll spans.flatten = (spans, []) := by
  intro spans
  induction spans with
  | nil => intro _; rfl
  | cons sp rest ih =>
    intro h
    obtain ⟨hpre, hlen, hfind⟩ := h sp (by simp)
    have hex : extractFrame (sp ++ rest.flatten) = some (sp, rest.flatten) := by
      rw [extractFrame_eq]
      have h0 : findAt SOI (sp ++ rest.flatten) = some 0 :=
        findAt_zero (isPrefixOf_append _ hpre)
      have hd2 : (sp ++ rest.flatten).drop 2 = sp.drop 2 ++ rest.flatten :=
        List.drop_append_of_le_length (by omega)
      have hEnd : findAt EOI ((sp ++ rest.flatten).drop 2) =
          some (sp.length - 4) := by
        rw [hd2]; exact findAt_append _ hfind
      simp only [h0, hEnd]
      have e1 : sp.length - 4 + 4 = sp.length := by omega
      have e2 : 0 + 2 + (sp.length - 4) + 2 = sp.length := by omega
      rw [List.drop_zero, e1, e2, List.take_left, List.drop_left]
    rw [List.flatten_cons, scanAll_eq]
    simp only [hex]
    have hrest := ih (fun d hd => h d (by simp [hd]))
    simp [hrest]

/-- Witness for C4 (amended): the spec scenario
`FF D8 AA BB FF D9 FF D8 CC FF D9` in one chunk gives exactly the two
frames `FFD8AABBFFD9` and `FFD8CCFFD9` with an empty buffer. -/
theorem c4_n_spans_n_frames_witness :
    (∀ sp ∈ [[255, 216, 170, 187, 255, 217], [255, 216, 204, 255, 217]],
      CleanSpan sp) ∧
    scanAll [255, 216, 170, 187, 255, 217, 255, 216, 204, 255, 217] =
      ([[255, 216, 170, 187, 255, 217], [255, 216, 204, 255, 217]], []) :=
  ⟨by decide,
   c4_n_spans_n_frames
     [[255, 216, 170, 187, 255, 217], [255, 216, 204, 255, 217]] (by decide)⟩

/-- Claim C5: when a chunk read leaves one or more complete
start/end-marker pairs in the buffer, the inner loop emits the first
extractable frame and then every further one, in buffer order, and when
the loop exits (just before the next read) no complete pair remains. -/
theorem c5_emit_all_before_next_read (data f rest : List Nat)
    (h : extractFrame data = some (f, rest)) :
    (scanAll data).1 = f :: (scanAll rest).1 ∧
    extractFrame (scanAll data).2 = none := by
  constructor
  · rw [scanAll_eq]
    simp [h]
  · exact scanAll_stuck data

/-- Witness for C5 at a buffer holding two complete frames. -/
theorem c5_emit_all_before_next_read_witness :
    extractFrame [255, 216, 0, 255, 217, 255, 216, 1, 255, 217] =
      some ([255, 216, 0, 255, 217], [255, 216, 1, 255, 217]) ∧
    (scanAll [255, 216, 0, 255, 217, 255, 216, 1, 255, 217]).1 =
      [255, 216, 0, 255, 217] :: (scanAll [255, 216, 1, 255, 217]).1 ∧
    extractFrame (scanAll [255, 216, 0, 255, 217, 255, 216, 1, 255, 217]).2 =
      none :=
  ⟨by decide,
   (c5_emit_all_before_next_read [255, 216, 0, 255, 217, 255, 216, 1, 255, 217]
     [255, 216, 0, 255, 217] [255, 216, 1, 255, 217] (by decide)).1,
   (c5_emit_all_before_next_read [255, 216, 0, 255, 217, 255, 216, 1, 255, 217]
     [255, 216, 0, 255, 217] [255, 216, 1, 255, 217] (by decide)).2⟩

/-- Claim C6: a buffer containing a start marker (`data.find(b'\xff\xd8')`
succeeds) but no end marker after it (`data.find(b'\xff\xd9', start + 2)`
returns -1) yields zero frames from one pass of the scan loop and every
buffered byte is left in place for the next read. -/
theorem c6_no_end_marker_retains_buffer (data : List Nat)
    (h1 : pyFind data SOI 0 ≠ -1)
    (h2 : pyFind data EOI (pyFind data SOI 0 + 2).toNat = -1) :
    extractFrame data = none ∧ scanAll data = ([], data) := by
  have hE : extractFrame data = none := by
    simp only [extractFrame]
    rw [if_pos (Or.inr h2)]
  exact ⟨hE, scanAll_of_none hE⟩

/-- Witness for C6 at the buffer `FF D8 AA`. -/
theorem c6_no_end_marker_retains_buffer_witness :
    pyFind [255, 216, 170] SOI 0 ≠ -1 ∧
    pyFind [255, 216, 170] EOI (pyFind [255, 216, 170] SOI 0 + 2).toNat = -1 ∧
    extractFrame [255, 216, 170] = none ∧
    scanAll [255, 216, 170] = ([], [255, 216, 170]) :=
  ⟨by decide, by decide,
   (c6_no_end_marker_retains_buffer _ (by decide) (by decide)).1,
   (c6_no_end_marker_retains_buffer _ (by decide) (by decide)).2⟩

/-- Claim C7: every chunk yielded to the client is exactly
`b'--frame\r\nContent-Type: image/jpeg\r\n\r\n'` followed by the frame
bytes followed by `b'\r\n'`, where the frame begins with `FF D8`, ends
with `FF D9`, and — because the end-marker search starts at
`start + 2` — is at least 4 bytes long. -/
theorem c7_multipart_chunk_format (src : List ReadOutcome) (m : ExitMode)
    (b : List Nat) (hb : b ∈ yieldsOf (genTrace src m)) :
    ∃ f, b = partHeader ++ f ++ crlf ∧ f.take 2 = SOI ∧
      f.drop (f.length - 2) = EOI ∧ 4 ≤ f.length :=
  yieldsOf_runBody_mem src [] b (yieldsOf_genTrace_mem src m b hb)

/-- Witness for C7 at a single-frame source. -/
theorem c7_multipart_chunk_format_witness :
    wrapFrame [255, 216, 170, 255, 217] ∈
      yieldsOf (genTrace [ReadOutcome.ok [255, 216, 170, 255, 217]]
        ExitMode.normal) ∧
    ∃ f, wrapFrame [255, 216, 170, 255, 217] = partHeader ++ f ++ crlf ∧
      f.take 2 = SOI ∧ f.drop (f.length - 2) = EOI ∧ 4 ≤ f.length :=
  ⟨by decide,
   c7_multipart_chunk_format [ReadOutcome.ok [255, 216, 170, 255, 217]]
     ExitMode.normal (wrapFrame [255, 216, 170, 255, 217]) (by decide)⟩

/-- Claim C8: whenever the splitter is about to perform the next read —
that is, after the inner scan loop has exited on any prefix of the chunk
stream — the buffer holds no stale completed frame: there is no start
marker followed (at distance at least 2) by an end marker. -/
theorem c8_no_stale_frame_in_buffer (chunks : List (List Nat)) :
    ¬ ∃ i j, SOI.isPrefixOf ((feedChunks chunks).2.drop i) = true ∧
      EOI.isPrefixOf ((feedChunks chunks).2.drop j) = true ∧ i + 2 ≤ j := by
  rw [feedChunks_eq]
  exact extractFrame_none_iff.mp (scanAll_stuck chunks.flatten)

/-- Witness for C8 at the chunk stream `[[FF D8 AA]]`. -/
theorem c8_no_stale_frame_in_buffer_witness :
    ¬ ∃ i j, SOI.isPrefixOf ((feedChunks [[255, 216, 170]]).2.drop i) = true ∧
      EOI.isPrefixOf ((feedChunks [[255, 216, 170]]).2.drop j) = true ∧
      i + 2 ≤ j :=
  c8_no_stale_frame_in_buffer [[255, 216, 170]]

/-- Claim C9: when the byte source reaches EOF (a zero-byte read) while
the buffer still holds residual bytes, the generator terminates normally
with exactly one kill as the final event, and the yields are exactly the
wrapped complete frames — the residual bytes are never emitted. -/
theorem c9_residual_discarded_on_eof (chunks : List (List Nat))
    (hne : ∀ c ∈ chunks, c ≠ [])
    (hres : (feedChunks chunks).2 ≠ []) :
    yieldsOf (genTrace (chunks.map ReadOutcome.ok) ExitMode.normal) =
      ((feedChunks chunks).1).map wrapFrame ∧
    (genTrace (chunks.map ReadOutcome.ok) ExitMode.normal).count Ev.kill = 1 ∧
    (genTrace (chunks.map ReadOutcome.ok) ExitMode.normal).getLast? =
      some Ev.kill := by
  have hspawn : Ev.spawn ∈
      genTrace (chunks.map ReadOutcome.ok) ExitMode.normal := by
    simp [genTrace]
  obtain ⟨hk, hl⟩ := genTrace_kill _ _ hspawn
  refine ⟨?_, hk, hl⟩
  rw [yieldsOf_genTrace_normal,
    yieldsOf_runBody chunks [] extractFrame_nil hne, feedChunks_eq]
  simp

/-- Witness for C9: the source delivers `FF D8 AA` (a dangling partial
frame) and then EOF; nothing is yielded, and the kill still ends the
trace. -/
theorem c9_residual_discarded_on_eof_witness :
    (∀ c ∈ [[255, 216, 170]], c ≠ ([] : List Nat)) ∧
    (feedChunks [[255, 216, 170]]).2 ≠ [] ∧
    yieldsOf (genTrace [ReadOutcome.ok [255, 216, 170]] ExitMode.normal) =
      ((feedChunks [[255, 216, 170]]).1).map wrapFrame ∧
    (genTrace [ReadOutcome.ok [255, 216, 170]] ExitMode.normal).count
      Ev.kill = 1 :=
  ⟨by decide, by decide,
   (c9_residual_discarded_on_eof [[255, 216, 170]] (by decide) (by decide)).1,
   (c9_residual_discarded_on_eof [[255, 216, 170]] (by decide)
     (by decide)).2.1⟩

/-- Claim C10: no validation happens at the public interface: for every
input, `add_stream` stores the quality string (any string, including
values outside 1-31), the resolution string and the fps value unchanged
(with `active = 1`), the freshly inserted row is what `generate_frames`
looks up, and the command line passes the stored values verbatim: the
url after `-i`, `str(fps)` after `-r`, `'scale=' + resolution` after
`-vf`, and the quality string after `-q:v`. -/
theorem c10_no_validation (db : List StreamRow) (u q res : String)
    (fps : Int) :
    lookupStream (addStream db u q res fps) (nextId db) =
      some ⟨nextId db, u, 1, q, res, fps⟩ ∧
    ∀ r : StreamRow,
      (buildCommand r).get? 4 = some r.url ∧
      (buildCommand r).get? 6 = some (toString r.fps) ∧
      (buildCommand r).get? 10 = some ("scale=" ++ r.resolution) ∧
      (buildCommand r).get? 12 = some r.quality := by
  constructor
  · unfold lookupStream addStream
    rw [List.filter_append]
    have hnil : db.filter (fun r => r.id == nextId db) = [] := by
      rw [List.filter_eq_nil_iff]
      intro r hr
      have hlt := id_lt_nextId db r hr
      simp only [beq_iff_eq]
      omega
    rw [hnil]
    simp [List.filter]
  · intro r
    exact ⟨rfl, rfl, rfl, rfl⟩

/-- Witness for C10 with the out-of-domain quality string `"999"`: it is
stored and looked up unchanged and appears verbatim in the command. -/
theorem c10_no_validation_witness :
    lookupStream (addStream [] urlW q999 resW 15) (nextId []) =
      some ⟨nextId [], urlW, 1, q999, resW, 15⟩ ∧
    (buildCommand ⟨nextId [], urlW, 1, q999, resW, 15⟩).get? 12 =
      some q999 :=
  ⟨(c10_no_validation [] urlW q999 resW 15).1,
   ((c10_no_validation [] urlW q999 resW 15).2 _).2.2.2⟩

end RtspMjpeg
